import Mathlib

/-!
Shallow embedding of the telemetry-logging core of
`src/devices/YarpRobotLoggerDevice/src/YarpRobotLoggerDevice.cpp`.

Strings (`std::string`) are modelled as `List Char`; clock readings
(`std::chrono::nanoseconds`) as `Int` nanosecond counts; image frames
(`cv::Mat`) as lists of integer pixel values; the side effects of a tick
(lock operations, channel additions, sample appends, filesystem actions)
as explicit event lists.  Collaborator calls (sensor bridge reads, camera
bridge reads, port reads) are supplied as oracle data, since only their
boolean/payload outcome reaches the code under verification.
-/

set_option maxRecDepth 4096

namespace YarpLoggerModel

/-- Convenience conversion from a Lean string literal to the `List Char`
representation used for `std::string`. -/
def str (s : String) : List Char := s.toList

/-- Model of `std::string::find(pat, ·)` scanning a suffix: first index (counting
from `i`) at which `pat` occurs, `none` when it does not occur. -/
def strFindAux (pat : List Char) : List Char → Nat → Option Nat
  | [], i => if pat.isPrefixOf ([] : List Char) then some i else none
  | c :: rest, i =>
    if pat.isPrefixOf (c :: rest) then some i else strFindAux pat rest (i + 1)

/-- Model of `std::string::find(pat, start)`: index of the first occurrence of
`pat` in `s` at or after `start`, `none` for `npos`. -/
def strFind (s pat : List Char) (start : Nat) : Option Nat :=
  if start ≤ s.length then strFindAux pat (s.drop start) start else none

/-- Model of `std::string::replace(pos, len, repl)`. -/
def strReplace (s : List Char) (pos len : Nat) (repl : List Char) : List Char :=
  s.take pos ++ repl ++ s.drop (pos + len)

/-- Whether `pat` occurs in `s` (`s.find(pat) != std::string::npos`). -/
def containsOcc (pat s : List Char) : Bool :=
  (strFind s pat 0).isSome

/-- The while-loop of `findAndReplaceAll` (YarpRobotLoggerDevice.cpp, lines
66-78), made total with an explicit fuel.  The loop state is the current
string and the current match position (`none` = `npos`); after each
replacement the scan resumes at `pos + replaceStr.size()`, just past the
inserted replacement text. -/
def faraLoop (toSearch replaceStr : List Char) (fuel : Nat) (data : List Char)
    (pos : Option Nat) : Option (List Char) :=
  match pos with
  | none => some data
  | some p =>
    match fuel with
    | 0 => none
    | fuel + 1 =>
      let d2 := strReplace data p toSearch.length replaceStr
      faraLoop toSearch replaceStr fuel d2 (strFind d2 toSearch (p + replaceStr.length))

/-- `findAndReplaceAll(data, toSearch, replaceStr)` from the source (lines
66-78).  The fuel `data.length + 1` is shown sufficient for every non-empty
search string; `none` models non-termination of the C++ loop (which happens
for an empty search string). -/
def findAndReplaceAll (data toSearch replaceStr : List Char) : Option (List Char) :=
  faraLoop toSearch replaceStr (data.length + 1) data (strFind data toSearch 0)

/-- Character-wise substitution of `c` by `d`. -/
def mapChar (c d : Char) (s : List Char) : List Char :=
  s.map (fun x => if x = c then d else x)

/-- Relevant fields of a deserialized `BipedalLocomotion::TextLoggingEntry`
(YarpTextLoggingUtilities); the source field `portPrefix` is named `portPre`
here. -/
structure TextMsg where
  isValid : Bool
  portSystem : List Char
  portPre : List Char
  processName : List Char
  processPID : List Char
deriving DecidableEq

/-- The composite channel key built in run() (lines 1390-1391):
`portSystem + "::" + portPrefix + "::" + processName + "::p" + processPID`. -/
def rawSignalName (m : TextMsg) : List Char :=
  m.portSystem ++ str "::" ++ m.portPre ++ str "::" ++ m.processName ++ str "::p"
    ++ m.processPID

/-- The sanitization applied to the key (line 1394):
`findAndReplaceAll(signalFullName, "-", "_")` — matlab does not accept `-` in
a struct key.  `getD` only names the (provably unreachable) fuel-exhaustion
fallback. -/
def sanitizeKey (s : List Char) : List Char :=
  (findAndReplaceAll s [ '-' ] [ '_' ]).getD s

/-- Events produced by one Sampling Scheduler tick (run, lines 1195-1412):
acquisition/release of the store-wide `m_bufferManagerMutex`, acquisitions of
per-signal mutexes, channel additions and sample appends (`push_back`).
Append events carry the timestamp passed to `push_back`. -/
inductive RunEvent where
  | advanceCall : RunEvent
  | lockB : RunEvent
  | unlockB : RunEvent
  | lockSig : List Char → RunEvent
  | unlockSig : List Char → RunEvent
  | addChannel : List Char → RunEvent
  | push : List Char → Int → RunEvent
deriving DecidableEq

/-- Handling of one text-log message inside the drain loop (lines 1386-1405):
invalid messages are dropped; a valid message's sanitized key gets a channel
added (and the key recorded) on first sight, then the sample is appended. -/
def processLogMsg (seen : List (List Char)) (m : TextMsg) (time : Int) :
    List (List Char) × List RunEvent :=
  if m.isValid then
    let key := sanitizeKey (rawSignalName m)
    if key ∈ seen then (seen, [RunEvent.push key time])
    else (key :: seen, [RunEvent.addChannel key, RunEvent.push key time])
  else (seen, [])

/-- The text-log drain loop of run() (lines 1379-1411).  `pending` is the
queue content when `getPendingReads()` is sampled at the start of the drain;
`arrivals` lists, for each successive read, the batch of messages that
arrives at the port while that message is processed — the loop re-reads
`getPendingReads()` after every message, so such arrivals extend the drain.
Returns the updated set of seen keys, the store events, and the number of
messages drained.  `drainRemaining` is the phase after the last arrival:
every message still pending is read and processed. -/
def drainRemaining (time : Int) :
    List (List Char) → List TextMsg → List (List Char) × List RunEvent × Nat
  | seen, [] => (seen, [], 0)
  | seen, m :: rest =>
    let s2 := processLogMsg seen m time
    let r := drainRemaining time s2.1 rest
    (r.1, s2.2 ++ r.2.1, r.2.2 + 1)

/-- The drain loop proper: an empty re-sampled pending count ends the loop
even when later messages would still arrive; otherwise one message is read
and processed, and the batch arriving during its processing joins the
queue before `getPendingReads()` is sampled again. -/
def drainTextLogs (time : Int) :
    List (List Char) → List TextMsg → List (List TextMsg) →
      List (List Char) × List RunEvent × Nat
  | seen, pending, [] => drainRemaining time seen pending
  | seen, [], _ :: _ => (seen, [], 0)
  | seen, m :: rest, batch :: arrivals =>
    let s2 := processLogMsg seen m time
    let r := drainTextLogs time s2.1 (rest ++ batch) arrivals
    (r.1, s2.2 ++ r.2.1, r.2.2 + 1)

/-- Connected vectors-collection exogenous signal as one tick sees it:
`incoming` is the non-null collection read from the port, given by the keys of
its vectors (`none` models a null read); `dataArrived` is the
channel-creation latch. -/
structure VCSignal where
  name : List Char
  signalName : List Char
  dataArrived : Bool
  incoming : Option (List (List Char))
deriving DecidableEq

/-- Connected plain-vector exogenous signal: `incoming` tells whether the
non-blocking read returned data. -/
structure VSignal where
  name : List Char
  signalName : List Char
  dataArrived : Bool
  incoming : Bool
deriving DecidableEq

/-- Configuration flags and per-tick oracle of run(): the clock reading taken
at line 1205 and the outcome of every collaborator read of this tick.  Sensor
list entries pair the sensor name with the success of its read. -/
structure RunInput where
  now : Int
  streamJointStates : Bool
  streamMotorStates : Bool
  streamMotorPWM : Bool
  streamPIDs : Bool
  jointPosOk : Bool
  jointVelOk : Bool
  jointAccOk : Bool
  jointTrqOk : Bool
  motorPosOk : Bool
  motorVelOk : Bool
  motorAccOk : Bool
  motorCurOk : Bool
  pwmOk : Bool
  pidOk : Bool
  ftSensors : List (List Char × Bool)
  tempSensors : List (List Char × Bool)
  gyroSensors : List (List Char × Bool)
  accSensors : List (List Char × Bool)
  orientSensors : List (List Char × Bool)
  magSensors : List (List Char × Bool)
  imuSensors : List (List Char × Bool)
  wrenchSensors : List (List Char × Bool)
  vcSignals : List VCSignal
  vSignals : List VSignal
  textPending : List TextMsg
  textArrivals : List (List TextMsg)
deriving DecidableEq

/-- A `push_back` guarded by a successful bridge read. -/
def pushIf (b : Bool) (ch : List Char) (t : Int) : List RunEvent :=
  if b then [RunEvent.push ch t] else []

/-- Per-sensor loop: append to `stem + name` for every sensor whose read
succeeds. -/
def sensorPushes (stem : List Char) (sensors : List (List Char × Bool)) (t : Int) :
    List RunEvent :=
  sensors.flatMap (fun s => pushIf s.2 (stem ++ s.1) t)

/-- Joint-state category appends (lines 1209-1227). -/
def jointStateEvents (i : RunInput) (t : Int) : List RunEvent :=
  if i.streamJointStates then
    pushIf i.jointPosOk (str "joints_state::positions") t ++
    pushIf i.jointVelOk (str "joints_state::velocities") t ++
    pushIf i.jointAccOk (str "joints_state::accelerations") t ++
    pushIf i.jointTrqOk (str "joints_state::torques") t
  else []

/-- Motor-state category appends (lines 1229-1247). -/
def motorStateEvents (i : RunInput) (t : Int) : List RunEvent :=
  if i.streamMotorStates then
    pushIf i.motorPosOk (str "motors_state::positions") t ++
    pushIf i.motorVelOk (str "motors_state::velocities") t ++
    pushIf i.motorAccOk (str "motors_state::accelerations") t ++
    pushIf i.motorCurOk (str "motors_state::currents") t
  else []

/-- Motor PWM append (lines 1249-1255). -/
def pwmEvents (i : RunInput) (t : Int) : List RunEvent :=
  if i.streamMotorPWM then pushIf i.pwmOk (str "motors_state::PWM") t else []

/-- PID append (lines 1257-1263). -/
def pidEvents (i : RunInput) (t : Int) : List RunEvent :=
  if i.streamPIDs then pushIf i.pidOk (str "PIDs") t else []

/-- IMU appends: one successful IMU read appends to three channels
(lines 1315-1329). -/
def imuEvents (sensors : List (List Char × Bool)) (t : Int) : List RunEvent :=
  sensors.flatMap (fun s =>
    if s.2 then
      [RunEvent.push (str "accelerometers::" ++ s.1) t,
       RunEvent.push (str "gyros::" ++ s.1) t,
       RunEvent.push (str "orientations::" ++ s.1) t]
    else [])

/-- Vectors-collection exogenous signal handling (lines 1340-1362): lock the
signal, and if data arrived, add the channels on first arrival and append one
sample per sub-vector. -/
def vcSignalEvents (s : VCSignal) (t : Int) : List RunEvent :=
  RunEvent.lockSig s.name ::
    ((match s.incoming with
      | none => []
      | some keys =>
        (if s.dataArrived then []
         else keys.map (fun k => RunEvent.addChannel (s.signalName ++ str "::" ++ k))) ++
        keys.map (fun k => RunEvent.push (s.signalName ++ str "::" ++ k) t)) ++
     [RunEvent.unlockSig s.name])

/-- Plain-vector exogenous signal handling (lines 1364-1377). -/
def vSignalEvents (s : VSignal) (t : Int) : List RunEvent :=
  RunEvent.lockSig s.name ::
    ((if s.incoming then
        (if s.dataArrived then [] else [RunEvent.addChannel s.signalName]) ++
        [RunEvent.push s.signalName t]
      else []) ++
     [RunEvent.unlockSig s.name])

/-- The body of one tick between the store-lock acquisition and its release:
all category appends, exogenous-signal reads and the text-log drain, in
source order. -/
def runBody (i : RunInput) (seen : List (List Char)) : List RunEvent :=
  jointStateEvents i i.now ++ motorStateEvents i i.now ++ pwmEvents i i.now ++
  pidEvents i i.now ++
  sensorPushes (str "FTs::") i.ftSensors i.now ++
  sensorPushes (str "temperatures::") i.tempSensors i.now ++
  sensorPushes (str "gyros::") i.gyroSensors i.now ++
  sensorPushes (str "accelerometers::") i.accSensors i.now ++
  sensorPushes (str "orientations::") i.orientSensors i.now ++
  sensorPushes (str "magnetometers::") i.magSensors i.now ++
  imuEvents i.imuSensors i.now ++
  sensorPushes (str "cartesian_wrenches::") i.wrenchSensors i.now ++
  (i.vcSignals.flatMap (fun s => vcSignalEvents s i.now)) ++
  (i.vSignals.flatMap (fun s => vSignalEvents s i.now)) ++
  (drainTextLogs i.now seen i.textPending i.textArrivals).2.1

/-- One tick of YarpRobotLoggerDevice::run (lines 1195-1412): advance the
sensor bridge, read the clock once (`time`, line 1205), take the store-wide
`m_bufferManagerMutex` through a scoped `lock_guard` (line 1207) and perform
every append of the tick under it; the guard is released when run() returns.
Returns the event trace and the updated set of seen text-log keys. -/
def runTick (i : RunInput) (seen : List (List Char)) :
    List RunEvent × List (List Char) :=
  (RunEvent.advanceCall :: RunEvent.lockB :: (runBody i seen ++ [RunEvent.unlockB]),
   (drainTextLogs i.now seen i.textPending i.textArrivals).1)

/-- Discriminator for append events. -/
def isPush : RunEvent → Bool
  | RunEvent.push _ _ => true
  | _ => false

/-- Number of appends performed between the acquisition of the store-wide
lock and its release in a trace. -/
def pushesWhileLocked (tr : List RunEvent) : Nat :=
  ((tr.dropWhile (fun e => !(e == RunEvent.lockB))).takeWhile
      (fun e => !(e == RunEvent.unlockB))).countP isPush

/-- Invariant of every event inside a tick body: it is not a store-lock
event nor the advance call, and if it is an append it carries the tick
timestamp `t0`. -/
def segInv (t0 : Int) (e : RunEvent) : Prop :=
  e ≠ RunEvent.lockB ∧ e ≠ RunEvent.unlockB ∧ e ≠ RunEvent.advanceCall ∧
    ∀ ch u, e = RunEvent.push ch u → u = t0

/-- Per-camera-stream save mode. -/
inductive SaveMode where
  | video : SaveMode
  | frame : SaveMode
deriving DecidableEq

/-- State of one stream's ImageSaver as the save callback sees it.
`reopenOk` is the oracle outcome of openVideoWriter when the stream is
reopened after a periodic rotation (dimension lookup and encoder creation,
lines 876-917). -/
structure SaverSt where
  saveMode : SaveMode
  reopenOk : Bool
deriving DecidableEq

/-- One camera entry of the save callback; `none` for a stream models a null
ImageSaver pointer, the only failure path of the saveVideo lambda. -/
structure CamSt where
  name : List Char
  rgb : Option SaverSt
  depth : Option SaverSt
deriving DecidableEq

/-- Filesystem/encoder actions performed during a save event. -/
inductive FsEvent where
  | releaseWriter : List Char → List Char → FsEvent
  | renameFS : List Char → List Char → FsEvent
  | openWriter : List Char → List Char → FsEvent
  | createDir : List Char → FsEvent
  | statusFile : List Char → FsEvent
deriving DecidableEq

/-- The saveVideo lambda (saveCallback, lines 1439-1469): fails only on a
null saver; in Video mode it releases the encoder and renames
`output_<cam>_<kind>.mp4` to the rotation-prefixed name; in Frame mode it
renames `output_<cam>_<kind>` — the frames folder — without releasing
anything (the rename at line 1466 runs in both modes). -/
def saveVideoStep (fileName : List Char) (saver : Option SaverSt)
    (camera kind : List Char) : Bool × List FsEvent :=
  match saver with
  | none => (false, [])
  | some s =>
    let temp := fileName ++ str "_" ++ camera ++ str "_" ++ kind
    let oldName := str "output_" ++ camera ++ str "_" ++ kind
    match s.saveMode with
    | SaveMode.video =>
      (true, [FsEvent.releaseWriter camera kind,
              FsEvent.renameFS (oldName ++ str ".mp4") (temp ++ str ".mp4")])
    | SaveMode.frame =>
      (true, [FsEvent.renameFS oldName temp])

/-- Reopening one stream after a periodic rotation: openVideoWriter (lines
876-917) in Video mode; createFramesFolder (lines 919-940, always succeeding
for a non-null saver and re-creating `output_<cam>_<kind>`) in Frame mode. -/
def reopenStep (s : SaverSt) (camera kind : List Char) : Bool × List FsEvent :=
  match s.saveMode with
  | SaveMode.video =>
    if s.reopenOk then (true, [FsEvent.openWriter camera kind]) else (false, [])
  | SaveMode.frame =>
    (true, [FsEvent.createDir (str "output_" ++ camera ++ str "_" ++ kind)])

/-- Rotation handling of one rgb camera (loop body, lines 1472-1508); the
null-saver branch after a successful saveVideo is unreachable. -/
def handleRgbCam (fileName : List Char) (periodic : Bool) (cam : CamSt) :
    Bool × List FsEvent :=
  let sv := saveVideoStep fileName cam.rgb cam.name (str "rgb")
  if sv.1 = false then (false, sv.2)
  else if periodic = false then (true, sv.2)
  else
    match cam.rgb with
    | none => (false, sv.2)
    | some s =>
      let ro := reopenStep s cam.name (str "rgb")
      (ro.1, sv.2 ++ ro.2)

/-- Rotation handling of one rgbd camera (loop body, lines 1510-1578): save
the rgb stream, then the depth stream, then — periodic events only — reopen
both. -/
def handleRgbdCam (fileName : List Char) (periodic : Bool) (cam : CamSt) :
    Bool × List FsEvent :=
  let svR := saveVideoStep fileName cam.rgb cam.name (str "rgb")
  if svR.1 = false then (false, svR.2)
  else
    let svD := saveVideoStep fileName cam.depth cam.name (str "depth")
    if svD.1 = false then (false, svR.2 ++ svD.2)
    else if periodic = false then (true, svR.2 ++ svD.2)
    else
      match cam.rgb, cam.depth with
      | some sr, some sd =>
        let roR := reopenStep sr cam.name (str "rgb")
        if roR.1 = false then (false, svR.2 ++ svD.2 ++ roR.2)
        else
          let roD := reopenStep sd cam.name (str "depth")
          (roD.1, svR.2 ++ svD.2 ++ roR.2 ++ roD.2)
      | _, _ => (false, svR.2 ++ svD.2)

/-- Camera loop with the source's return-false-on-failure control flow:
cameras after a failing one are not visited. -/
def handleCams (step : CamSt → Bool × List FsEvent) : List CamSt → Bool × List FsEvent
  | [] => (true, [])
  | cam :: rest =>
    let r := step cam
    if r.1 = false then (false, r.2)
    else
      let rr := handleCams step rest
      (rr.1, r.2 ++ rr.2)

/-- YarpRobotLoggerDevice::saveCallback (lines 1414-1609): handle every rgb
camera, then every rgbd camera — any failure returns false immediately,
skipping all remaining cameras — then write the code-status side file. -/
def saveCallbackRun (fileName : List Char) (periodic : Bool)
    (rgbCams rgbdCams : List CamSt) : Bool × List FsEvent :=
  let r1 := handleCams (handleRgbCam fileName periodic) rgbCams
  if r1.1 = false then (false, r1.2)
  else
    let r2 := handleCams (handleRgbdCam fileName periodic) rgbdCams
    if r2.1 = false then (false, r1.2 ++ r2.2)
    else (true, r1.2 ++ r2.2 ++ [FsEvent.statusFile fileName])

/-- The wake-up update shared by lookForExogenousSignals (lines 983-992),
lookForNewLogs (lines 1033-1041) and recordVideo (lines 1083-1091).  The
source condition `(time - oldTime).count() < 1e-12` compares an integer
nanosecond count against `1e-12`, which holds exactly when the count is at
most zero, i.e. when `time ≤ oldTime`. -/
def updateWakeUp (time oldTime wakeUpTime dt : Int) : Int :=
  (if time - oldTime ≤ 0 then time else wakeUpTime) + dt

/-- The update described by the claim: re-anchor only on a strict decrease of
the clock reading. -/
def claimedWakeUp (time oldTime wakeUpTime dt : Int) : Int :=
  (if time < oldTime then time else wakeUpTime) + dt

/-- Wake-up step of lookForNewLogs, fixed period 2s (line 1028). -/
def lookForNewLogsStep (time oldTime wakeUpTime : Int) : Int :=
  updateWakeUp time oldTime wakeUpTime 2000000000

/-- Wake-up step of lookForExogenousSignals, fixed period 1s (line 967). -/
def lookForExogenousStep (time oldTime wakeUpTime : Int) : Int :=
  updateWakeUp time oldTime wakeUpTime 1000000000

/-- `cv::Mat::convertTo(·, CV_8UC1)`: saturating cast of each pixel value to
8 bits. -/
def sat8 (v : Int) : Int := max 0 (min v 255)

/-- `cv::Mat::convertTo(·, CV_16UC1)`: saturating cast of each pixel value to
16 bits. -/
def sat16 (v : Int) : Int := max 0 (min v 65535)

/-- Saver state of one stream inside recordVideo: mode and current frame
buffer (`cv::Mat`, as a list of pixel values).  Its frames-folder path is
`output_<cam>_<kind>`. -/
structure VideoSaverSt where
  saveMode : SaveMode
  frame : List Int
deriving DecidableEq

/-- VideoWriter entry for one camera (the fps only fixes the period `dt`). -/
structure VideoWriterSt where
  rgb : Option VideoSaverSt
  depth : Option VideoSaverSt
  depthScale : Int
deriving DecidableEq

/-- Effects of one recordVideo iteration. -/
inductive VideoEvent where
  | writeEncoder : List Char → List Char → List Int → VideoEvent
  | writeImageFile : List Char → Nat → List Int → VideoEvent
  | lockStore : VideoEvent
  | unlockStore : VideoEvent
  | marker : List Char → Int → VideoEvent
deriving DecidableEq

/-- One iteration of recordVideo (lines 1081-1192) for camera `cameraName`.
`colorIn`/`depthIn` are the frames delivered by the camera bridge this tick
(`none` = the read failed and the previous frame is reused; a newly pulled
depth frame is scaled by `depthScale` at line 1142, before the mode branch).
Video mode writes to the encoder — the depth frame narrowed by `sat8`
(line 1149); Frame mode writes a numbered image file — the depth frame
narrowed by `sat16` (line 1163) — and appends a timestamp marker under the
store-wide lock.  Returns the updated writer state, the events, the next
image index and the next wake-up time computed by `updateWakeUp`. -/
def recordVideoTick (cameraName : List Char) (w : VideoWriterSt)
    (colorIn depthIn : Option (List Int)) (time oldTime wakeUpTime dt : Int)
    (imageIndex : Nat) : VideoWriterSt × List VideoEvent × Nat × Int :=
  let wake := updateWakeUp time oldTime wakeUpTime dt
  let rgbPart : Option VideoSaverSt × List VideoEvent :=
    match w.rgb with
    | none => (none, [])
    | some s =>
      let f := match colorIn with
        | none => s.frame
        | some g => g
      match s.saveMode with
      | SaveMode.video =>
        (some { s with frame := f },
         [VideoEvent.writeEncoder cameraName (str "rgb") f])
      | SaveMode.frame =>
        (some { s with frame := f },
         [VideoEvent.writeImageFile (str "output_" ++ cameraName ++ str "_rgb")
            imageIndex f,
          VideoEvent.lockStore,
          VideoEvent.marker (str "camera::" ++ cameraName ++ str "::rgb") time,
          VideoEvent.unlockStore])
  let depthPart : Option VideoSaverSt × List VideoEvent :=
    match w.depth with
    | none => (none, [])
    | some s =>
      let f := match depthIn with
        | none => s.frame
        | some g => g.map (fun v => v * w.depthScale)
      match s.saveMode with
      | SaveMode.video =>
        (some { s with frame := f },
         [VideoEvent.writeEncoder cameraName (str "depth") (f.map sat8)])
      | SaveMode.frame =>
        (some { s with frame := f },
         [VideoEvent.writeImageFile (str "output_" ++ cameraName ++ str "_depth")
            imageIndex (f.map sat16),
          VideoEvent.lockStore,
          VideoEvent.marker (str "camera::" ++ cameraName ++ str "::depth") time,
          VideoEvent.unlockStore])
  ({ rgb := rgbPart.1, depth := depthPart.1, depthScale := w.depthScale },
   rgbPart.2 ++ depthPart.2, imageIndex + 1, wake)

/-- Checks the store-lock discipline of a video-thread trace: scanning left
to right, every `lockStore` must be immediately followed by exactly one
marker append and then its `unlockStore`, and no marker or `unlockStore`
occurs outside such a block — the store-wide lock is held per single
append. -/
def storeLockPattern : List VideoEvent → Bool
  | [] => true
  | VideoEvent.lockStore :: VideoEvent.marker _ _ :: VideoEvent.unlockStore :: rest =>
    storeLockPattern rest
  | VideoEvent.lockStore :: _ => false
  | VideoEvent.unlockStore :: _ => false
  | VideoEvent.marker _ _ :: _ => false
  | _ :: rest => storeLockPattern rest

/-- createImageSaver (open, lines 228-247): recognizes the save-mode strings
`frame` and `video`, anything else yields a null saver. -/
def createImageSaver (mode : List Char) : Option SaveMode :=
  if mode = str "frame" then some SaveMode.frame
  else if mode = str "video" then some SaveMode.video
  else none

/-- Camera-related configuration parameters as read by open(); `none` models
a parameter missing from the configuration. -/
structure CamerasConf where
  rgbEnabled : Bool
  rgbdEnabled : Bool
  rgbCameras : List (List Char)
  rgbdCameras : List (List Char)
  rgbFps : Option (List Int)
  rgbdFps : Option (List Int)
  rgbdDepthScale : Option (List Int)
  rgbSaveModes : Option (List (List Char))
  rgbdRgbSaveModes : Option (List (List Char))
  rgbdDepthSaveModes : Option (List (List Char))
  videoCodecCode : Option (List Char)
deriving DecidableEq

/-- The per-camera validation loop (lines 249-287) for the rgb camera list: a
non-positive fps returns false immediately; an unrecognized save mode only
clears the accumulated `ok` flag, and the loop continues. -/
def camerasLoopRgb : List Int → List (List Char) → Bool
  | [], _ => true
  | f :: fs, sms =>
    if f ≤ 0 then false
    else ((createImageSaver (sms.headD (str ""))).isSome && camerasLoopRgb fs sms.tail)

/-- The validation loop for the rgbd camera list (rgb and depth save modes
are both validated). -/
def camerasLoopRgbd : List Int → List (List Char) → List (List Char) → Bool
  | [], _, _ => true
  | f :: fs, rsm, dsm =>
    if f ≤ 0 then false
    else ((createImageSaver (rsm.headD (str ""))).isSome
          && (createImageSaver (dsm.headD (str ""))).isSome
          && camerasLoopRgbd fs rsm.tail dsm.tail)

/-- The populateCamerasData lambda (lines 139-290) applied to the rgb camera
list: missing fps or save-mode parameters and size mismatches fail before the
per-camera loop. -/
def populateRgb (conf : CamerasConf) : Bool :=
  match conf.rgbFps with
  | none => false
  | some fps =>
    match conf.rgbSaveModes with
    | none => false
    | some sm =>
      if fps.length ≠ sm.length then false
      else if fps.length ≠ conf.rgbCameras.length then false
      else camerasLoopRgb fps sm

/-- populateCamerasData applied to the rgbd camera list: the depth scale and
the two save-mode lists are additionally required and size-checked
(lines 150-193). -/
def populateRgbd (conf : CamerasConf) : Bool :=
  match conf.rgbdFps with
  | none => false
  | some fps =>
    match conf.rgbdDepthScale, conf.rgbdRgbSaveModes, conf.rgbdDepthSaveModes with
    | some scale, some rsm, some dsm =>
      if fps.length ≠ scale.length ∨ fps.length ≠ rsm.length ∨ fps.length ≠ dsm.length
      then false
      else if fps.length ≠ rsm.length then false
      else if fps.length ≠ conf.rgbdCameras.length then false
      else camerasLoopRgbd fps rsm dsm
    | _, _, _ => false

/-- Non-camera outcomes of open(): the results of setupRobotSensorBridge,
setupRobotCameraBridge, setupTelemetry and setupExogenousInputs. -/
structure OpenConf where
  sensorBridgeOk : Bool
  cameraBridgeOk : Bool
  cams : CamerasConf
  telemetryOk : Bool
  exogenousOk : Bool
deriving DecidableEq

/-- YarpRobotLoggerDevice::open (lines 107-353).  A failed camera-bridge
setup is non-fatal (line 337: the video is simply not recorded) and skips
every camera and codec check; the codec length is checked only when a camera
type is enabled (lines 314-336).  The second component lists the worker
threads started by open(): none on any path — threads are started later, in
attachAll. -/
def openCamsOk (conf : OpenConf) : Bool :=
  if conf.cameraBridgeOk then
    (if conf.cams.rgbEnabled then populateRgb conf.cams else true) &&
    (if conf.cams.rgbdEnabled then populateRgbd conf.cams else true) &&
    (if conf.cams.rgbEnabled || conf.cams.rgbdEnabled then
      match conf.cams.videoCodecCode with
      | none => true
      | some code => code.length == 4
     else true)
  else true

/-- The decision made by open() given the camera-section outcome above. -/
def openDevice (conf : OpenConf) : Bool × List (List Char) :=
  if conf.sensorBridgeOk = false then (false, [])
  else if openCamsOk conf = false then (false, [])
  else if conf.telemetryOk = false then (false, [])
  else if conf.exogenousOk = false then (false, [])
  else (true, [])

/-- A valid text-log message from producer `sys::q::proc-a::p1`. -/
def msgA : TextMsg :=
  { isValid := true, portSystem := str "sys", portPre := str "q",
    processName := str "proc-a", processPID := str "1" }

/-- A valid message from a different producer. -/
def msgB : TextMsg :=
  { isValid := true, portSystem := str "sys", portPre := str "q",
    processName := str "proc-b", processPID := str "2" }

/-- Tick input with joint states enabled and two successful category reads,
everything else disabled or empty. -/
def runInputTwoPushes : RunInput :=
  { now := 7, streamJointStates := true, streamMotorStates := false,
    streamMotorPWM := false, streamPIDs := false,
    jointPosOk := true, jointVelOk := true, jointAccOk := false, jointTrqOk := false,
    motorPosOk := false, motorVelOk := false, motorAccOk := false, motorCurOk := false,
    pwmOk := false, pidOk := false,
    ftSensors := [], tempSensors := [], gyroSensors := [], accSensors := [],
    orientSensors := [], magSensors := [], imuSensors := [], wrenchSensors := [],
    vcSignals := [], vSignals := [], textPending := [], textArrivals := [] }

/-- An rgb camera whose saver pointer is null: saveVideo fails for it. -/
def camBad : CamSt := { name := str "alpha", rgb := none, depth := none }

/-- A healthy video-mode rgb camera. -/
def camGood : CamSt :=
  { name := str "beta",
    rgb := some { saveMode := SaveMode.video, reopenOk := true },
    depth := none }

/-- An rgbd camera whose depth-stream encoder fails to reopen after a
periodic rotation. -/
def camDepthReopenFail : CamSt :=
  { name := str "gamma",
    rgb := some { saveMode := SaveMode.video, reopenOk := true },
    depth := some { saveMode := SaveMode.video, reopenOk := false } }

/-- A video-writer entry with one frame-mode rgb stream. -/
def vwFrameOnly : VideoWriterSt :=
  { rgb := some { saveMode := SaveMode.frame, frame := [] },
    depth := none, depthScale := 1 }

/-- Configuration with an enabled rgb camera whose single configured fps is
negative. -/
def confBadFps : OpenConf :=
  { sensorBridgeOk := true, cameraBridgeOk := true,
    cams := { rgbEnabled := true, rgbdEnabled := false, rgbCameras := [str "c"],
              rgbdCameras := [], rgbFps := some [-1], rgbdFps := none,
              rgbdDepthScale := none, rgbSaveModes := some [str "video"],
              rgbdRgbSaveModes := none, rgbdDepthSaveModes := none,
              videoCodecCode := none },
    telemetryOk := true, exogenousOk := true }

/-- Configuration with the camera bridge configured but no camera type
enabled, and a two-character video codec code. -/
def confBadCodec : OpenConf :=
  { sensorBridgeOk := true, cameraBridgeOk := true,
    cams := { rgbEnabled := false, rgbdEnabled := false, rgbCameras := [],
              rgbdCameras := [], rgbFps := none, rgbdFps := none,
              rgbdDepthScale := none, rgbSaveModes := none,
              rgbdRgbSaveModes := none, rgbdDepthSaveModes := none,
              videoCodecCode := some (str "ab") },
    telemetryOk := true, exogenousOk := true }

theorem strFindAux_some_spec (pat : List Char) :
    ∀ (s : List Char) (i j : Nat), strFindAux pat s i = some j →
      i ≤ j ∧ j - i ≤ s.length ∧ pat.isPrefixOf (s.drop (j - i)) = true := by
  intro s
  induction s with
  | nil =>
    intro i j h
    simp only [strFindAux] at h
    by_cases hp : pat.isPrefixOf ([] : List Char) = true
    · simp [hp] at h
      subst h
      simp [hp]
    · simp [hp] at h
  | cons c rest ih =>
    intro i j h
    simp only [strFindAux] at h
    by_cases hp : pat.isPrefixOf (c :: rest) = true
    · simp [hp] at h
      subst h
      simpa using hp
    · simp [hp] at h
      obtain ⟨h1, h2, h3⟩ := ih (i + 1) j h
      refine ⟨by omega, by simp; omega, ?_⟩
      have hji : j - i = (j - (i + 1)) + 1 := by omega
      rw [hji]
      simpa using h3

theorem strFindAux_none_spec (pat : List Char) (hpat : pat ≠ []) :
    ∀ (s : List Char) (i : Nat), strFindAux pat s i = none →
      ∀ k, pat.isPrefixOf (s.drop k) = false := by
  intro s
  induction s with
  | nil =>
    intro i _ k
    cases pat with
    | nil => exact absurd rfl hpat
    | cons a as => simp [List.isPrefixOf]
  | cons c rest ih =>
    intro i h k
    simp only [strFindAux] at h
    cases hp : pat.isPrefixOf (c :: rest) with
    | true => simp [hp] at h
    | false =>
      simp only [hp, Bool.false_eq_true, if_false] at h
      cases k with
      | zero => simpa using hp
      | succ k' =>
        simp only [List.drop_succ_cons]
        exact ih (i + 1) h k'

theorem strFind_some_spec (s pat : List Char) (start j : Nat)
    (h : strFind s pat start = some j) :
    start ≤ j ∧ j ≤ s.length ∧ pat.isPrefixOf (s.drop j) = true := by
  simp only [strFind] at h
  by_cases hs : start ≤ s.length
  · simp only [hs, if_true] at h
    obtain ⟨h1, h2, h3⟩ := strFindAux_some_spec pat (s.drop start) start j h
    have hlen : (s.drop start).length = s.length - start := by simp
    refine ⟨h1, by omega, ?_⟩
    rw [List.drop_drop] at h3
    have hj : start + (j - start) = j := by omega
    rwa [hj] at h3
  · simp [hs] at h

theorem strFind_some_len (s pat : List Char) (start j : Nat) (_hpat : pat ≠ [])
    (h : strFind s pat start = some j) : j + pat.length ≤ s.length := by
  obtain ⟨h1, h2, h3⟩ := strFind_some_spec s pat start j h
  have hpre : pat <+: s.drop j := List.isPrefixOf_iff_prefix.mp h3
  have hle := hpre.length_le
  simp only [List.length_drop] at hle
  omega

theorem strReplace_length (s : List Char) (pos len : Nat) (repl : List Char)
    (h : pos + len ≤ s.length) :
    (strReplace s pos len repl).length = s.length - len + repl.length := by
  simp only [strReplace, List.length_append, List.length_take, List.length_drop]
  omega

theorem faraLoop_isSome (toSearch replaceStr : List Char) (hts : toSearch ≠ []) :
    ∀ (fuel : Nat) (data : List Char) (pos : Option Nat),
      (∀ p, pos = some p → p + toSearch.length ≤ data.length ∧ data.length - p ≤ fuel) →
      (faraLoop toSearch replaceStr fuel data pos).isSome = true := by
  have hpos : 0 < toSearch.length := List.length_pos.mpr hts
  intro fuel
  induction fuel with
  | zero =>
    intro data pos hinv
    cases pos with
    | none => simp [faraLoop]
    | some p =>
      obtain ⟨hp1, hp2⟩ := hinv p rfl
      omega
  | succ fuel ih =>
    intro data pos hinv
    cases pos with
    | none => simp [faraLoop]
    | some p =>
      obtain ⟨hp1, hp2⟩ := hinv p rfl
      show (faraLoop toSearch replaceStr fuel
          (strReplace data p toSearch.length replaceStr)
          (strFind (strReplace data p toSearch.length replaceStr) toSearch
            (p + replaceStr.length))).isSome = true
      apply ih
      intro p2 h2
      have hlen2 : (strReplace data p toSearch.length replaceStr).length
          = data.length - toSearch.length + replaceStr.length :=
        strReplace_length data p toSearch.length replaceStr hp1
      have hge := (strFind_some_spec _ _ _ _ h2).1
      have hle := strFind_some_len _ _ _ _ hts h2
      constructor
      · omega
      · omega

theorem findAndReplaceAll_isSome (data toSearch replaceStr : List Char) (hts : toSearch ≠ []) :
    (findAndReplaceAll data toSearch replaceStr).isSome = true := by
  apply faraLoop_isSome _ _ hts
  intro p hp
  have h1 := (strFind_some_spec data toSearch 0 p hp).1
  have h2 := strFind_some_len data toSearch 0 p hts hp
  have hpos : 0 < toSearch.length := List.length_pos.mpr hts
  omega

theorem strFindAux_single_min (c : Char) :
    ∀ (s : List Char) (i j : Nat), strFindAux [c] s i = some j →
      ∀ x ∈ s.take (j - i), x ≠ c := by
  intro s
  induction s with
  | nil =>
    intro i j h
    simp [strFindAux, List.isPrefixOf] at h
  | cons a rest ih =>
    intro i j h
    simp only [strFindAux] at h
    by_cases hca : ([c].isPrefixOf (a :: rest)) = true
    · simp only [hca, if_true, Option.some.injEq] at h
      subst h
      simp
    · simp only [hca, if_false, Bool.false_eq_true] at h
      have hge := (strFindAux_some_spec [c] rest (i + 1) j h).1
      have hne : a ≠ c := by
        intro hac
        apply hca
        subst hac
        simp [List.isPrefixOf]
      intro x hx
      have hji : j - i = (j - (i + 1)) + 1 := by omega
      rw [hji, List.take_succ_cons] at hx
      rcases List.mem_cons.mp hx with h1 | h1
      · subst h1; exact hne
      · exact ih (i + 1) j h x h1

theorem strFindAux_single_none (c : Char) :
    ∀ (s : List Char) (i : Nat), strFindAux [c] s i = none → ∀ x ∈ s, x ≠ c := by
  intro s
  induction s with
  | nil =>
    intro i _ x hx
    simp at hx
  | cons a rest ih =>
    intro i h x hx
    simp only [strFindAux] at h
    by_cases hca : ([c].isPrefixOf (a :: rest)) = true
    · simp [hca] at h
    · rw [if_neg hca] at h
      have hne : a ≠ c := by
        intro hac
        apply hca
        subst hac
        simp [List.isPrefixOf]
      rcases List.mem_cons.mp hx with h1 | h1
      · subst h1; exact hne
      · exact ih (i + 1) h x h1

theorem strFindAux_single_eq_none (c : Char) :
    ∀ (s : List Char) (i : Nat), (∀ x ∈ s, x ≠ c) → strFindAux [c] s i = none := by
  intro s
  induction s with
  | nil =>
    intro i _
    simp [strFindAux, List.isPrefixOf]
  | cons a rest ih =>
    intro i h
    have hne : ¬([c].isPrefixOf (a :: rest) = true) := by
      intro hc
      obtain ⟨t, ht⟩ := List.isPrefixOf_iff_prefix.mp hc
      have hct : c :: t = a :: rest := by simpa using ht
      have hca : c = a := by injection hct
      exact (h a (List.mem_cons_self a rest)) hca.symm
    simp only [strFindAux]
    rw [if_neg hne]
    exact ih (i + 1) (fun x hx => h x (List.mem_cons_of_mem a hx))

theorem strFind_single_none (c : Char) (s : List Char) (start : Nat)
    (h : strFind s [c] start = none) (hpre : ∀ x ∈ s.take start, x ≠ c) :
    ∀ x ∈ s, x ≠ c := by
  intro x hx
  simp only [strFind] at h
  by_cases hs : start ≤ s.length
  · simp only [hs, if_true] at h
    have h2 := strFindAux_single_none c (s.drop start) start h
    have hx2 : x ∈ s.take start ++ s.drop start := by
      rw [List.take_append_drop]
      exact hx
    rcases List.mem_append.mp hx2 with h3 | h3
    · exact hpre x h3
    · exact h2 x h3
  · have hall : s.take start = s := List.take_of_length_le (by omega)
    exact hpre x (by rw [hall]; exact hx)

theorem strFind_single_some_spec (c : Char) (s : List Char) (start p : Nat)
    (h : strFind s [c] start = some p) (hpre : ∀ x ∈ s.take start, x ≠ c) :
    start ≤ p ∧ p + 1 ≤ s.length ∧ s.drop p = c :: s.drop (p + 1) ∧
      ∀ x ∈ s.take p, x ≠ c := by
  obtain ⟨h1, h2, h3⟩ := strFind_some_spec s [c] start p h
  have hlen : p + 1 ≤ s.length := by
    have := strFind_some_len s [c] start p (by simp) h
    simpa using this
  have hd : s.drop p = c :: s.drop (p + 1) := by
    have hpre2 : [c] <+: s.drop p := List.isPrefixOf_iff_prefix.mp h3
    obtain ⟨t, ht⟩ := hpre2
    have hteq : s.drop p = c :: t := by simpa using ht.symm
    have htail := congrArg List.tail hteq
    simp only [List.tail_drop, List.tail_cons] at htail
    rw [hteq, htail]
  refine ⟨h1, hlen, hd, ?_⟩
  simp only [strFind] at h
  by_cases hs : start ≤ s.length
  · simp only [hs, if_true] at h
    have hmin := strFindAux_single_min c (s.drop start) start p h
    intro x hx
    have hsplit : s.take p = s.take start ++ (s.drop start).take (p - start) := by
      conv_lhs => rw [show p = start + (p - start) from by omega]
      exact List.take_add ..
    rw [hsplit] at hx
    rcases List.mem_append.mp hx with h4 | h4
    · exact hpre x h4
    · exact hmin x h4
  · simp [hs] at h

theorem strReplace_take (data : List Char) (p : Nat) (repl : List Char)
    (hp : p ≤ data.length) :
    (strReplace data p 1 repl).take (p + repl.length) = data.take p ++ repl := by
  have hl : (data.take p).length = p := by
    rw [List.length_take]
    omega
  have h1 : strReplace data p 1 repl = data.take p ++ (repl ++ data.drop (p + 1)) := by
    simp [strReplace]
  rw [h1, List.take_append_eq_append_take, hl,
    List.take_of_length_le (le_trans (le_of_eq hl) (Nat.le_add_right p repl.length))]
  congr 1
  rw [Nat.add_sub_cancel_left, List.take_append_eq_append_take, List.take_length,
    Nat.sub_self, List.take_zero, List.append_nil]

theorem mapChar_eq_self (c d : Char) (s : List Char) (h : ∀ x ∈ s, x ≠ c) :
    mapChar c d s = s := by
  simp only [mapChar]
  have hcg : ∀ x ∈ s, (if x = c then d else x) = id x := by
    intro x hx
    simp [h x hx]
  rw [List.map_congr_left hcg, List.map_id]

theorem containsOcc_single_false_of_clean (c : Char) (s : List Char)
    (h : ∀ x ∈ s, x ≠ c) : containsOcc [c] s = false := by
  simp only [containsOcc, strFind, List.drop_zero]
  rw [if_pos (Nat.zero_le _), strFindAux_single_eq_none c s 0 h]
  rfl

theorem clean_of_containsOcc_single_false (c : Char) (s : List Char)
    (h : containsOcc [c] s = false) : ∀ x ∈ s, x ≠ c := by
  have hnone : strFind s [c] 0 = none := by
    cases hfind : strFind s [c] 0 with
    | none => rfl
    | some p => simp [containsOcc, hfind] at h
  intro x hx
  exact strFind_single_none c s 0 hnone (by intro y hy; simp at hy) x hx

theorem faraLoop_single_map (c d : Char) (hdc : d ≠ c) :
    ∀ (fuel : Nat) (data : List Char) (start : Nat),
      data.length ≤ start + fuel →
      (∀ x ∈ data.take start, x ≠ c) →
      faraLoop [c] [d] fuel data (strFind data [c] start) = some (mapChar c d data) := by
  intro fuel
  induction fuel with
  | zero =>
    intro data start hf hpre
    have hnone : strFind data [c] start = none := by
      simp only [strFind]
      by_cases hs : start ≤ data.length
      · have hdrop : data.drop start = [] := List.drop_eq_nil_of_le (by omega)
        simp [hs, hdrop, strFindAux, List.isPrefixOf]
      · simp [hs]
    rw [hnone]
    show some data = some (mapChar c d data)
    rw [mapChar_eq_self c d data
      (fun x hx => hpre x (by rw [List.take_of_length_le (by omega)]; exact hx))]
  | succ fuel ih =>
    intro data start hf hpre
    cases hfind : strFind data [c] start with
    | none =>
      have hall : ∀ x ∈ data, x ≠ c := strFind_single_none c data start hfind hpre
      show some data = some (mapChar c d data)
      rw [mapChar_eq_self c d data hall]
    | some p =>
      obtain ⟨h1, h2, hd, hmin⟩ := strFind_single_some_spec c data start p hfind hpre
      show faraLoop [c] [d] fuel (strReplace data p 1 [d])
          (strFind (strReplace data p 1 [d]) [c] (p + 1)) = some (mapChar c d data)
      have hrep : (strReplace data p 1 [d]).length = data.length := by
        rw [strReplace_length data p 1 [d] (by omega)]
        simp only [List.length_cons, List.length_nil]
        omega
      have htake : (strReplace data p 1 [d]).take (p + 1) = data.take p ++ [d] := by
        have := strReplace_take data p [d] (by omega)
        simpa using this
      have hclean : ∀ x ∈ (strReplace data p 1 [d]).take (p + 1), x ≠ c := by
        rw [htake]
        intro x hx
        rcases List.mem_append.mp hx with h4 | h4
        · exact hmin x h4
        · rw [List.mem_singleton] at h4
          subst h4
          exact hdc
      have hdata : data = data.take p ++ c :: data.drop (p + 1) := by
        conv_lhs => rw [← List.take_append_drop p data]
        rw [hd]
      have hmapeq : mapChar c d (strReplace data p 1 [d]) = mapChar c d data := by
        conv_rhs => rw [hdata]
        simp [strReplace, mapChar, hdc]
      rw [← hmapeq]
      exact ih (strReplace data p 1 [d]) (p + 1) (by omega) hclean

theorem faraLoop_single_clean (c : Char) (repl : List Char)
    (hrepl : ∀ x ∈ repl, x ≠ c) :
    ∀ (fuel : Nat) (data : List Char) (start : Nat),
      data.length ≤ start + fuel →
      (∀ x ∈ data.take start, x ≠ c) →
      ∃ r, faraLoop [c] repl fuel data (strFind data [c] start) = some r ∧
        ∀ x ∈ r, x ≠ c := by
  intro fuel
  induction fuel with
  | zero =>
    intro data start hf hpre
    have hnone : strFind data [c] start = none := by
      simp only [strFind]
      by_cases hs : start ≤ data.length
      · have hdrop : data.drop start = [] := List.drop_eq_nil_of_le (by omega)
        simp [hs, hdrop, strFindAux, List.isPrefixOf]
      · simp [hs]
    rw [hnone]
    exact ⟨data, rfl,
      fun x hx => hpre x (by rw [List.take_of_length_le (by omega)]; exact hx)⟩
  | succ fuel ih =>
    intro data start hf hpre
    cases hfind : strFind data [c] start with
    | none =>
      exact ⟨data, rfl, strFind_single_none c data start hfind hpre⟩
    | some p =>
      obtain ⟨h1, h2, hd, hmin⟩ := strFind_single_some_spec c data start p hfind hpre
      show ∃ r, faraLoop [c] repl fuel (strReplace data p 1 repl)
          (strFind (strReplace data p 1 repl) [c] (p + repl.length)) = some r ∧
          ∀ x ∈ r, x ≠ c
      have hrep : (strReplace data p 1 repl).length = data.length - 1 + repl.length :=
        strReplace_length data p 1 repl (by omega)
      have htake : (strReplace data p 1 repl).take (p + repl.length)
          = data.take p ++ repl := strReplace_take data p repl (by omega)
      have hclean : ∀ x ∈ (strReplace data p 1 repl).take (p + repl.length), x ≠ c := by
        rw [htake]
        intro x hx
        rcases List.mem_append.mp hx with h4 | h4
        · exact hmin x h4
        · exact hrepl x h4
      exact ih (strReplace data p 1 repl) (p + repl.length) (by omega) hclean

theorem findAndReplaceAll_single_map (c d : Char) (hdc : d ≠ c) (data : List Char) :
    findAndReplaceAll data [c] [d] = some (mapChar c d data) := by
  show faraLoop [c] [d] (data.length + 1) data (strFind data [c] 0)
      = some (mapChar c d data)
  exact faraLoop_single_map c d hdc (data.length + 1) data 0 (by omega)
    (by intro x hx; simp at hx)

theorem findAndReplaceAll_single_clean (c : Char) (repl data : List Char)
    (hrepl : ∀ x ∈ repl, x ≠ c) :
    ∃ r, findAndReplaceAll data [c] repl = some r ∧ ∀ x ∈ r, x ≠ c := by
  show ∃ r, faraLoop [c] repl (data.length + 1) data (strFind data [c] 0) = some r ∧
    ∀ x ∈ r, x ≠ c
  exact faraLoop_single_clean c repl hrepl (data.length + 1) data 0 (by omega)
    (by intro x hx; simp at hx)

theorem sanitizeKey_eq_mapChar (s : List Char) :
    sanitizeKey s = mapChar '-' '_' s := by
  simp only [sanitizeKey]
  rw [findAndReplaceAll_single_map '-' '_' (by decide) s]
  rfl

/-- C10 counterexample: with input `aab`, search `ab` and replacement `b`,
the replacement contains no occurrence of the search string, yet the result
`ab` does — the occurrence is formed at the junction of the replacement text
with the surrounding text, which the resumed scan never revisits. -/
theorem findAndReplaceAll_occurrence_cex :
    containsOcc (str "ab") (str "b") = false ∧
    findAndReplaceAll (str "aab") (str "ab") (str "b") = some (str "ab") ∧
    containsOcc (str "ab") (str "ab") = true := by
  decide

/-- C10 (amended): for every input string and non-empty search string,
findAndReplaceAll terminates (the scan resumes just past each inserted
replacement, so the fuel `data.length + 1` always suffices); and when the
search string is a single character whose replacement contains no occurrence
of it, the resulting string contains no occurrence of the search string. -/
theorem findAndReplaceAll_props (data toSearch replaceStr : List Char)
    (h : toSearch ≠ []) :
    (findAndReplaceAll data toSearch replaceStr).isSome = true ∧
    (∀ c r, toSearch = [c] → containsOcc toSearch replaceStr = false →
      findAndReplaceAll data toSearch replaceStr = some r →
      containsOcc toSearch r = false) := by
  refine ⟨findAndReplaceAll_isSome data toSearch replaceStr h, ?_⟩
  intro c r hc hco hfar
  subst hc
  have hclean := clean_of_containsOcc_single_false c replaceStr hco
  obtain ⟨r2, hr2, hr2c⟩ := findAndReplaceAll_single_clean c replaceStr data hclean
  rw [hfar] at hr2
  injection hr2 with hr2
  subst hr2
  exact containsOcc_single_false_of_clean c r hr2c

/-- Witness for C10: the sanitization instance used by the logger, on the
concrete input `a-b`. -/
theorem findAndReplaceAll_props_witness :
    (findAndReplaceAll (str "a-b") [ '-' ] [ '_' ]).isSome = true ∧
    containsOcc [ '-' ] (str "a_b") = false := by
  have h := findAndReplaceAll_props (str "a-b") [ '-' ] [ '_' ] (by decide)
  exact ⟨h.1, h.2 '-' (str "a_b") rfl (by decide) (by decide)⟩

/-- C8: for a valid text-log message the channel key is the composite
`portSystem::portPrefix::processName::p<pid>` with every `-` replaced by `_`;
an unseen key gets its channel added (and the key recorded) before the sample
is appended, while an already-seen key only appends to the existing channel. -/
theorem textlog_channel_key (seen : List (List Char)) (m : TextMsg) (t : Int)
    (hv : m.isValid = true) :
    sanitizeKey (rawSignalName m) = mapChar '-' '_' (rawSignalName m) ∧
    (sanitizeKey (rawSignalName m) ∉ seen →
      processLogMsg seen m t =
        (sanitizeKey (rawSignalName m) :: seen,
         [RunEvent.addChannel (sanitizeKey (rawSignalName m)),
          RunEvent.push (sanitizeKey (rawSignalName m)) t])) ∧
    (sanitizeKey (rawSignalName m) ∈ seen →
      processLogMsg seen m t =
        (seen, [RunEvent.push (sanitizeKey (rawSignalName m)) t])) := by
  refine ⟨sanitizeKey_eq_mapChar _, ?_, ?_⟩
  · intro hnot
    simp [processLogMsg, hv, hnot]
  · intro hin
    simp [processLogMsg, hv, hin]

/-- Witness for C8: the first message of producer `sys::q::proc-a::p1` creates
the channel `sys::q::proc_a::p1` (dash sanitized) before appending to it. -/
theorem textlog_channel_key_witness :
    processLogMsg [] msgA 0 =
      ([str "sys::q::proc_a::p1"],
       [RunEvent.addChannel (str "sys::q::proc_a::p1"),
        RunEvent.push (str "sys::q::proc_a::p1") 0]) := by
  have h := (textlog_channel_key [] msgA 0 (by decide)).2.1 (by decide)
  rw [h]
  have hk : sanitizeKey (rawSignalName msgA) = str "sys::q::proc_a::p1" := by decide
  rw [hk]

theorem drainRemaining_count (t : Int) :
    ∀ (seen : List (List Char)) (pending : List TextMsg),
      (drainRemaining t seen pending).2.2 = pending.length := by
  intro seen pending
  induction pending generalizing seen with
  | nil => simp [drainRemaining]
  | cons m rest ih => simp [drainRemaining, ih]

/-- C1 (amended): the number of text-log messages drained by one tick is
bounded by the queue depth sampled at the start of the drain plus the number
of messages that arrive while the drain runs — the loop re-samples the
pending count after every message, so it is not bounded by the tick-start
depth alone. -/
theorem drain_count_bound (t : Int) (seen : List (List Char))
    (pending : List TextMsg) (arrivals : List (List TextMsg)) :
    (drainTextLogs t seen pending arrivals).2.2
      ≤ pending.length + (arrivals.map List.length).sum := by
  induction arrivals generalizing seen pending with
  | nil => simp [drainTextLogs, drainRemaining_count t]
  | cons batch rest ih =>
    cases pending with
    | nil => simp [drainTextLogs]
    | cons m p =>
      simp only [drainTextLogs]
      have hb := ih (processLogMsg seen m t).1 (p ++ batch)
      simp only [List.length_append, List.length_cons, List.map_cons, List.sum_cons]
        at hb ⊢
      omega

/-- C1 counterexample: the queue depth at tick start is 1 (only msgA
pending); one more message arrives while msgA is processed, and the drain
consumes 2 messages — more than the tick-start depth. -/
theorem drain_count_cex :
    (drainTextLogs 0 [] [msgA] [ [msgB] ]).2.2 = 2 ∧
    ([msgA] : List TextMsg).length = 1 := by
  decide

theorem segInv_push (t : Int) (ch : List Char) : segInv t (RunEvent.push ch t) := by
  refine ⟨by simp, by simp, by simp, ?_⟩
  intro ch2 u h
  injection h with h1 h2
  exact h2.symm

theorem segInv_addChannel (t : Int) (ch : List Char) :
    segInv t (RunEvent.addChannel ch) := by
  refine ⟨by simp, by simp, by simp, ?_⟩
  intro ch2 u h
  exact absurd h (by simp)

theorem segInv_lockSig (t : Int) (n : List Char) : segInv t (RunEvent.lockSig n) := by
  refine ⟨by simp, by simp, by simp, ?_⟩
  intro ch2 u h
  exact absurd h (by simp)

theorem segInv_unlockSig (t : Int) (n : List Char) :
    segInv t (RunEvent.unlockSig n) := by
  refine ⟨by simp, by simp, by simp, ?_⟩
  intro ch2 u h
  exact absurd h (by simp)

theorem segInv_pushIf (t : Int) (b : Bool) (ch : List Char) :
    ∀ e ∈ pushIf b ch t, segInv t e := by
  intro e he
  cases b with
  | false => simp [pushIf] at he
  | true =>
    simp [pushIf] at he
    subst he
    exact segInv_push t ch

theorem segInv_sensorPushes (t : Int) (stem : List Char)
    (sensors : List (List Char × Bool)) :
    ∀ e ∈ sensorPushes stem sensors t, segInv t e := by
  intro e he
  simp only [sensorPushes, List.mem_flatMap] at he
  obtain ⟨s, _, hs⟩ := he
  exact segInv_pushIf t s.2 (stem ++ s.1) e hs

theorem segInv_jointStateEvents (i : RunInput) (t : Int) :
    ∀ e ∈ jointStateEvents i t, segInv t e := by
  intro e he
  cases hs : i.streamJointStates with
  | false => simp [jointStateEvents, hs] at he
  | true =>
    simp only [jointStateEvents, hs, if_true, List.mem_append] at he
    rcases he with ((h | h) | h) | h <;> exact segInv_pushIf t _ _ e h

theorem segInv_motorStateEvents (i : RunInput) (t : Int) :
    ∀ e ∈ motorStateEvents i t, segInv t e := by
  intro e he
  cases hs : i.streamMotorStates with
  | false => simp [motorStateEvents, hs] at he
  | true =>
    simp only [motorStateEvents, hs, if_true, List.mem_append] at he
    rcases he with ((h | h) | h) | h <;> exact segInv_pushIf t _ _ e h

theorem segInv_pwmEvents (i : RunInput) (t : Int) :
    ∀ e ∈ pwmEvents i t, segInv t e := by
  intro e he
  cases hs : i.streamMotorPWM with
  | false => simp [pwmEvents, hs] at he
  | true =>
    simp only [pwmEvents, hs, if_true] at he
    exact segInv_pushIf t _ _ e he

theorem segInv_pidEvents (i : RunInput) (t : Int) :
    ∀ e ∈ pidEvents i t, segInv t e := by
  intro e he
  cases hs : i.streamPIDs with
  | false => simp [pidEvents, hs] at he
  | true =>
    simp only [pidEvents, hs, if_true] at he
    exact segInv_pushIf t _ _ e he

theorem segInv_imuEvents (sensors : List (List Char × Bool)) (t : Int) :
    ∀ e ∈ imuEvents sensors t, segInv t e := by
  intro e he
  simp only [imuEvents, List.mem_flatMap] at he
  obtain ⟨s, _, hs⟩ := he
  cases h2 : s.2 with
  | false => simp [h2] at hs
  | true =>
    simp only [h2, if_true, List.mem_cons, List.not_mem_nil, or_false] at hs
    rcases hs with h | h | h <;> (subst h; exact segInv_push t _)

theorem segInv_vcSignalEvents (s : VCSignal) (t : Int) :
    ∀ e ∈ vcSignalEvents s t, segInv t e := by
  intro e he
  simp only [vcSignalEvents, List.mem_cons, List.mem_append] at he
  rcases he with h | (h | (h | h))
  · subst h; exact segInv_lockSig t _
  · cases hin : s.incoming with
    | none => simp [hin] at h
    | some keys =>
      simp only [hin] at h
      rcases List.mem_append.mp h with h2 | h2
      · cases hda : s.dataArrived with
        | true => simp [hda] at h2
        | false =>
          simp only [hda, if_false, Bool.false_eq_true] at h2
          obtain ⟨k, _, hk⟩ := List.mem_map.mp h2
          subst hk
          exact segInv_addChannel t _
      · obtain ⟨k, _, hk⟩ := List.mem_map.mp h2
        subst hk
        exact segInv_push t _
  · subst h
    exact segInv_unlockSig t _
  · simp at h

theorem segInv_vSignalEvents (s : VSignal) (t : Int) :
    ∀ e ∈ vSignalEvents s t, segInv t e := by
  intro e he
  simp only [vSignalEvents, List.mem_cons, List.mem_append] at he
  rcases he with h | (h | (h | h))
  · subst h; exact segInv_lockSig t _
  · cases hin : s.incoming with
    | false => simp [hin] at h
    | true =>
      simp only [hin, if_true] at h
      rcases List.mem_append.mp h with h2 | h2
      · cases hda : s.dataArrived with
        | true => simp [hda] at h2
        | false =>
          simp only [hda, if_false, Bool.false_eq_true, List.mem_singleton] at h2
          subst h2
          exact segInv_addChannel t _
      · simp only [List.mem_singleton] at h2
        subst h2
        exact segInv_push t _
  · subst h
    exact segInv_unlockSig t _
  · simp at h

theorem segInv_processLogMsg (seen : List (List Char)) (m : TextMsg) (t : Int) :
    ∀ e ∈ (processLogMsg seen m t).2, segInv t e := by
  intro e he
  by_cases hv : m.isValid = true
  · by_cases hin : sanitizeKey (rawSignalName m) ∈ seen
    · simp [processLogMsg, hv, hin] at he
      subst he
      exact segInv_push t _
    · simp [processLogMsg, hv, hin] at he
      rcases he with h | h
      · subst h; exact segInv_addChannel t _
      · subst h; exact segInv_push t _
  · simp [processLogMsg, hv] at he

theorem segInv_drainRemaining (t : Int) :
    ∀ (pending : List TextMsg) (seen : List (List Char)),
      ∀ e ∈ (drainRemaining t seen pending).2.1, segInv t e := by
  intro pending
  induction pending with
  | nil => intro seen e he; simp [drainRemaining] at he
  | cons m rest ih =>
    intro seen e he
    simp only [drainRemaining] at he
    rcases List.mem_append.mp he with h | h
    · exact segInv_processLogMsg seen m t e h
    · exact ih (processLogMsg seen m t).1 e h

theorem segInv_drainTextLogs (t : Int) :
    ∀ (arrivals : List (List TextMsg)) (seen : List (List Char))
      (pending : List TextMsg),
      ∀ e ∈ (drainTextLogs t seen pending arrivals).2.1, segInv t e := by
  intro arrivals
  induction arrivals with
  | nil =>
    intro seen pending e he
    exact segInv_drainRemaining t pending seen e (by simpa [drainTextLogs] using he)
  | cons batch rest ih =>
    intro seen pending e he
    cases pending with
    | nil => simp [drainTextLogs] at he
    | cons m p =>
      simp only [drainTextLogs] at he
      rcases List.mem_append.mp he with h | h
      · exact segInv_processLogMsg seen m t e h
      · exact ih (processLogMsg seen m t).1 (p ++ batch) e h

theorem segInv_runBody (i : RunInput) (seen : List (List Char)) :
    ∀ e ∈ runBody i seen, segInv i.now e := by
  intro e he
  simp only [runBody, List.mem_append] at he
  rcases he with ((((((((((((((h | h) | h) | h) | h) | h) | h) | h) | h) | h) | h) | h)
      | h) | h) | h)
  · exact segInv_jointStateEvents i i.now e h
  · exact segInv_motorStateEvents i i.now e h
  · exact segInv_pwmEvents i i.now e h
  · exact segInv_pidEvents i i.now e h
  · exact segInv_sensorPushes i.now _ _ e h
  · exact segInv_sensorPushes i.now _ _ e h
  · exact segInv_sensorPushes i.now _ _ e h
  · exact segInv_sensorPushes i.now _ _ e h
  · exact segInv_sensorPushes i.now _ _ e h
  · exact segInv_sensorPushes i.now _ _ e h
  · exact segInv_imuEvents i.imuSensors i.now e h
  · exact segInv_sensorPushes i.now _ _ e h
  · obtain ⟨s, _, hs⟩ := List.mem_flatMap.mp h
    exact segInv_vcSignalEvents s i.now e hs
  · obtain ⟨s, _, hs⟩ := List.mem_flatMap.mp h
    exact segInv_vSignalEvents s i.now e hs
  · exact segInv_drainTextLogs i.now i.textArrivals seen i.textPending e h

/-- C5: within one invocation of the Sampling Scheduler tick, every sample
appended — all enabled measurement categories, all listed sensors, exogenous
signals and text-log messages — carries the same timestamp, the clock value
captured once at the start of the tick (line 1205). -/
theorem run_tick_single_timestamp (i : RunInput) (seen : List (List Char))
    (ch : List Char) (u : Int)
    (h : RunEvent.push ch u ∈ (runTick i seen).1) : u = i.now := by
  simp only [runTick, List.mem_cons] at h
  rcases h with h | h | h
  · exact absurd h (by simp)
  · exact absurd h (by simp)
  · rcases List.mem_append.mp h with h2 | h2
    · exact (segInv_runBody i seen _ h2).2.2.2 ch u rfl
    · simp at h2

/-- Witness for C5: in the concrete two-append tick, the joint-position
append carries the tick timestamp 7. -/
theorem run_tick_single_timestamp_witness :
    RunEvent.push (str "joints_state::positions") 7 ∈ (runTick runInputTwoPushes []).1 ∧
    (7 : Int) = runInputTwoPushes.now :=
  ⟨by decide,
   run_tick_single_timestamp runInputTwoPushes [] (str "joints_state::positions") 7
     (by decide)⟩

theorem storeLockPattern_enc (a b : List Char) (f : List Int)
    (rest : List VideoEvent) :
    storeLockPattern (VideoEvent.writeEncoder a b f :: rest)
      = storeLockPattern rest := rfl

theorem storeLockPattern_img_block (a : List Char) (i : Nat) (f : List Int)
    (ch : List Char) (t : Int) (rest : List VideoEvent) :
    storeLockPattern (VideoEvent.writeImageFile a i f :: VideoEvent.lockStore ::
        VideoEvent.marker ch t :: VideoEvent.unlockStore :: rest)
      = storeLockPattern rest := rfl

theorem recordVideo_lock_per_append (cameraName : List Char) (w : VideoWriterSt)
    (colorIn depthIn : Option (List Int)) (time oldTime wu dt : Int) (idx : Nat) :
    storeLockPattern
      (recordVideoTick cameraName w colorIn depthIn time oldTime wu dt idx).2.1
      = true := by
  cases hr : w.rgb with
  | none =>
    cases hd : w.depth with
    | none => simp [recordVideoTick, hr, hd, storeLockPattern]
    | some sd =>
      cases hdm : sd.saveMode <;>
        simp [recordVideoTick, hr, hd, hdm, storeLockPattern_enc,
          storeLockPattern_img_block, storeLockPattern]
  | some sr =>
    cases hsm : sr.saveMode <;> cases hd : w.depth with
    | none =>
      simp [recordVideoTick, hr, hd, hsm, storeLockPattern_enc,
        storeLockPattern_img_block, storeLockPattern]
    | some sd =>
      cases hdm : sd.saveMode <;>
        simp [recordVideoTick, hr, hd, hsm, hdm, storeLockPattern_enc,
          storeLockPattern_img_block, storeLockPattern]

/-- C3 (amended): in run() the store-wide lock is acquired exactly once per
tick — after the sensor-bridge advance — and released only at the tick's end;
every append of the tick (sensor categories, exogenous signals, text logs)
happens under that single acquisition, not under a per-append one.  In the
video worker threads, by contrast, the store-wide lock is held per single
append: every acquisition in a recordVideo iteration protects exactly one
marker append. -/
theorem run_lock_structure (i : RunInput) (seen : List (List Char))
    (cameraName : List Char) (w : VideoWriterSt) (colorIn depthIn : Option (List Int))
    (time oldTime wu dt : Int) (idx : Nat) :
    (∃ body, (runTick i seen).1
        = RunEvent.advanceCall :: RunEvent.lockB :: (body ++ [RunEvent.unlockB]) ∧
      RunEvent.lockB ∉ body ∧ RunEvent.unlockB ∉ body ∧
      (∀ ch u, RunEvent.push ch u ∈ (runTick i seen).1 →
        RunEvent.push ch u ∈ body)) ∧
    storeLockPattern
      (recordVideoTick cameraName w colorIn depthIn time oldTime wu dt idx).2.1
      = true := by
  constructor
  · refine ⟨runBody i seen, rfl, ?_, ?_, ?_⟩
    · intro hmem
      exact (segInv_runBody i seen _ hmem).1 rfl
    · intro hmem
      exact (segInv_runBody i seen _ hmem).2.1 rfl
    · intro ch u h
      simp only [runTick, List.mem_cons] at h
      rcases h with h | h | h
      · exact absurd h (by simp)
      · exact absurd h (by simp)
      · rcases List.mem_append.mp h with h2 | h2
        · exact h2
        · simp at h2
  · exact recordVideo_lock_per_append cameraName w colorIn depthIn time oldTime wu dt idx

/-- Witness for C3: the lock structure of the concrete two-append tick and
of one frame-mode video iteration. -/
theorem run_lock_structure_witness :
    (∃ body, (runTick runInputTwoPushes []).1
        = RunEvent.advanceCall :: RunEvent.lockB :: (body ++ [RunEvent.unlockB]) ∧
      RunEvent.lockB ∉ body ∧ RunEvent.unlockB ∉ body ∧
      (∀ ch u, RunEvent.push ch u ∈ (runTick runInputTwoPushes []).1 →
        RunEvent.push ch u ∈ body)) ∧
    storeLockPattern
      (recordVideoTick (str "cam0") vwFrameOnly (some [1]) none 0 0 0 1 0).2.1
      = true :=
  run_lock_structure runInputTwoPushes [] (str "cam0") vwFrameOnly (some [1]) none
    0 0 0 1 0

/-- C3 counterexample: a tick with two successful joint-state category reads
performs two appends inside one store-lock critical section, so the lock is
not held "only for the duration of a single append". -/
theorem run_lock_cex :
    pushesWhileLocked (runTick runInputTwoPushes []).1 = 2 ∧
    ¬ pushesWhileLocked (runTick runInputTwoPushes []).1 ≤ 1 := by
  decide

theorem handleCams_all_ok (step : CamSt → Bool × List FsEvent) :
    ∀ (cams : List CamSt), (∀ c ∈ cams, (step c).1 = true) →
      (handleCams step cams).1 = true := by
  intro cams
  induction cams with
  | nil => intro _; simp [handleCams]
  | cons cam rest ih =>
    intro h
    have hc := h cam (List.mem_cons_self cam rest)
    simp only [handleCams]
    rw [if_neg (by simp [hc])]
    simpa using ih (fun c hcm => h c (List.mem_cons_of_mem cam hcm))

theorem handleCams_fail_at (step : CamSt → Bool × List FsEvent) (bad : CamSt)
    (post : List CamSt) (hbad : (step bad).1 = false) :
    ∀ (pre : List CamSt), (∀ c ∈ pre, (step c).1 = true) →
      handleCams step (pre ++ bad :: post)
        = (false, pre.flatMap (fun c => (step c).2) ++ (step bad).2) := by
  intro pre
  induction pre with
  | nil =>
    intro _
    simp only [List.nil_append, handleCams, List.flatMap_nil]
    rw [if_pos hbad]
  | cons c rest ih =>
    intro h
    have hc := h c (List.mem_cons_self c rest)
    simp only [List.cons_append, handleCams]
    rw [if_neg (by simp [hc])]
    simp only [List.append_eq]
    rw [ih (fun x hx => h x (List.mem_cons_of_mem c hx))]
    simp [List.append_assoc]

/-- C2 counterexample: camera `alpha` fails saveVideo (null saver), so the
save callback returns false with no events at all; camera `beta`, although
healthy — its rotation step alone would produce release/rename events — is
never handled in that save event. -/
theorem saveCallback_abort_cex :
    saveCallbackRun (str "f0") true [camBad, camGood] [] = (false, []) ∧
    (handleRgbCam (str "f0") true camGood).2 ≠ [] := by
  decide

/-- C2 (amended): a finalize/rename/reopen failure for one camera is
reported by a false return that aborts the remainder of that rotation's
camera handling — the cameras after the failing one are not processed in
that save event; the callback's outcome depends only on that event's inputs,
so a later save event whose cameras are all healthy processes all of them
(future rotations are not blocked). -/
theorem saveCallback_abort_scope (fileName : List Char) (periodic : Bool) :
    (∀ (pre : List CamSt) (bad : CamSt) (post rgbd : List CamSt),
      (∀ c ∈ pre, (handleRgbCam fileName periodic c).1 = true) →
      (handleRgbCam fileName periodic bad).1 = false →
      saveCallbackRun fileName periodic (pre ++ bad :: post) rgbd
        = (false, pre.flatMap (fun c => (handleRgbCam fileName periodic c).2)
            ++ (handleRgbCam fileName periodic bad).2)) ∧
    (∀ (rgbCams pre : List CamSt) (bad : CamSt) (post : List CamSt),
      (∀ c ∈ rgbCams, (handleRgbCam fileName periodic c).1 = true) →
      (∀ c ∈ pre, (handleRgbdCam fileName periodic c).1 = true) →
      (handleRgbdCam fileName periodic bad).1 = false →
      saveCallbackRun fileName periodic rgbCams (pre ++ bad :: post)
        = (false, (handleCams (handleRgbCam fileName periodic) rgbCams).2
            ++ (pre.flatMap (fun c => (handleRgbdCam fileName periodic c).2)
              ++ (handleRgbdCam fileName periodic bad).2))) ∧
    (∀ rgb2 rgbd2 : List CamSt,
      (∀ c ∈ rgb2, (handleRgbCam fileName periodic c).1 = true) →
      (∀ c ∈ rgbd2, (handleRgbdCam fileName periodic c).1 = true) →
      (saveCallbackRun fileName periodic rgb2 rgbd2).1 = true) := by
  refine ⟨?_, ?_, ?_⟩
  · intro pre bad post rgbd hpre hbad
    have h1 := handleCams_fail_at (handleRgbCam fileName periodic) bad post hbad
      pre hpre
    simp [saveCallbackRun, h1]
  · intro rgbCams pre bad post hrgb hpre hbad
    have hr1 := handleCams_all_ok (handleRgbCam fileName periodic) rgbCams hrgb
    have hr2 := handleCams_fail_at (handleRgbdCam fileName periodic) bad post hbad
      pre hpre
    simp [saveCallbackRun, hr1, hr2]
  · intro rgb2 rgbd2 h2 h3
    have hr1 := handleCams_all_ok (handleRgbCam fileName periodic) rgb2 h2
    have hr2 := handleCams_all_ok (handleRgbdCam fileName periodic) rgbd2 h3
    simp [saveCallbackRun, hr1, hr2]

/-- Witness for C2: camGood succeeds and camBad fails in the rgb list, the
callback aborts with only camGood's events; camDepthReopenFail fails in the
rgbd list (depth-stream reopen failure), aborting after the rgb list's
events and its own partial events. -/
theorem saveCallback_abort_scope_witness :
    (saveCallbackRun (str "f0") true [camGood, camBad] []
      = (false, (handleRgbCam (str "f0") true camGood).2
          ++ (handleRgbCam (str "f0") true camBad).2)) ∧
    (saveCallbackRun (str "f0") true [camGood] [camDepthReopenFail]
      = (false, (handleCams (handleRgbCam (str "f0") true) [camGood]).2
          ++ (handleRgbdCam (str "f0") true camDepthReopenFail).2)) := by
  have h := saveCallback_abort_scope (str "f0") true
  constructor
  · simpa using h.1 [camGood] camBad [] [] (by decide) (by decide)
  · simpa using h.2.1 [camGood] [] camDepthReopenFail [] (by decide) (by decide)
      (by decide)

/-- C6 counterexample: a frozen clock — current reading equal to the previous
one (both 0), previous wake-up 5, period 2.  The code re-anchors and
schedules 0 + 2 = 2, while the claimed rule (re-anchor only when the current
reading is strictly less than the previous) would schedule 5 + 2 = 7; the
log-discovery loop with its 2s period shows the same divergence. -/
theorem wakeup_reanchor_cex :
    updateWakeUp 0 0 5 2 = 2 ∧ claimedWakeUp 0 0 5 2 = 7 ∧
    updateWakeUp 0 0 5 2 ≠ claimedWakeUp 0 0 5 2 ∧
    lookForNewLogsStep 0 0 5 = 2000000000 ∧
    lookForNewLogsStep 0 0 5 ≠ 5 + 2000000000 := by
  decide

/-- C6 (amended): in every worker loop (video recording, log discovery,
exogenous-signal discovery) the wake-up is re-anchored to the current reading
plus the loop period whenever the clock did not advance — current reading
less than *or equal to* the previous one, since the integer-nanosecond
difference is compared against 1e-12; when the clock strictly advanced, the
next wake-up is the previous wake-up plus the period.  A re-anchored wake-up
lies strictly after the current reading for a positive period, so no
negative inter-sample interval is produced. -/
theorem wakeup_reanchor (time oldTime wakeUpTime dt : Int) (cameraName : List Char)
    (w : VideoWriterSt) (colorIn depthIn : Option (List Int)) (idx : Nat) :
    (time ≤ oldTime → updateWakeUp time oldTime wakeUpTime dt = time + dt) ∧
    (oldTime < time → updateWakeUp time oldTime wakeUpTime dt = wakeUpTime + dt) ∧
    (0 < dt → time ≤ oldTime → time < updateWakeUp time oldTime wakeUpTime dt) ∧
    lookForNewLogsStep time oldTime wakeUpTime
      = updateWakeUp time oldTime wakeUpTime 2000000000 ∧
    lookForExogenousStep time oldTime wakeUpTime
      = updateWakeUp time oldTime wakeUpTime 1000000000 ∧
    (recordVideoTick cameraName w colorIn depthIn time oldTime wakeUpTime dt idx).2.2.2
      = updateWakeUp time oldTime wakeUpTime dt := by
  refine ⟨?_, ?_, ?_, rfl, rfl, rfl⟩
  · intro h
    simp only [updateWakeUp]
    rw [if_pos (by omega)]
  · intro h
    simp only [updateWakeUp]
    rw [if_neg (by omega)]
  · intro hdt h
    simp only [updateWakeUp]
    rw [if_pos (by omega)]
    omega

/-- Witness for C6: the frozen-clock and the advancing-clock instances. -/
theorem wakeup_reanchor_witness :
    updateWakeUp 0 0 5 2 = 0 + 2 ∧ updateWakeUp 3 1 5 2 = 5 + 2 :=
  ⟨(wakeup_reanchor 0 0 5 2 (str "cam") ⟨none, none, 1⟩ none none 0).1 (by decide),
   (wakeup_reanchor 3 1 5 2 (str "cam") ⟨none, none, 1⟩ none none 0).2.1 (by decide)⟩

/-- C7: in one recordVideo iteration with a newly pulled color frame `g` and
depth frame `f`: a Video-mode depth stream writes the `sat8`-narrowed scaled
frame `f * depthScale` to the encoder; a Video-mode color stream writes `g`
unmodified; a Frame-mode depth stream writes the `sat16`-narrowed scaled
frame as the numbered image file of its frames folder. -/
theorem depth_frame_processing (cameraName : List Char) (w : VideoWriterSt)
    (sr sd : VideoSaverSt) (g f : List Int) (time oldTime wu dt : Int) (idx : Nat)
    (hr : w.rgb = some sr) (hd : w.depth = some sd) :
    (sr.saveMode = SaveMode.video →
      VideoEvent.writeEncoder cameraName (str "rgb") g
        ∈ (recordVideoTick cameraName w (some g) (some f) time oldTime wu dt idx).2.1) ∧
    (sd.saveMode = SaveMode.video →
      VideoEvent.writeEncoder cameraName (str "depth")
          ((f.map (fun v => v * w.depthScale)).map sat8)
        ∈ (recordVideoTick cameraName w (some g) (some f) time oldTime wu dt idx).2.1) ∧
    (sd.saveMode = SaveMode.frame →
      VideoEvent.writeImageFile (str "output_" ++ cameraName ++ str "_depth") idx
          ((f.map (fun v => v * w.depthScale)).map sat16)
        ∈ (recordVideoTick cameraName w (some g) (some f) time oldTime wu dt idx).2.1) := by
  refine ⟨?_, ?_, ?_⟩
  · intro hm
    cases hsd : sd.saveMode <;> simp [recordVideoTick, hr, hd, hm, hsd]
  · intro hm
    cases hsr : sr.saveMode <;> simp [recordVideoTick, hr, hd, hm, hsr]
  · intro hm
    cases hsr : sr.saveMode <;> simp [recordVideoTick, hr, hd, hm, hsr]

/-- Witness for C7: rgbd writer with depth scale 3, color frame [5], depth
frame [100, 40000], both streams in Video mode. -/
theorem depth_frame_processing_witness :
    VideoEvent.writeEncoder (str "camD") (str "depth")
        (([100, 40000].map (fun v => v * (3 : Int))).map sat8)
      ∈ (recordVideoTick (str "camD")
          { rgb := some { saveMode := SaveMode.video, frame := [] },
            depth := some { saveMode := SaveMode.video, frame := [] },
            depthScale := 3 }
          (some [5]) (some [100, 40000]) 0 0 0 1 0).2.1 :=
  (depth_frame_processing (str "camD")
    { rgb := some { saveMode := SaveMode.video, frame := [] },
      depth := some { saveMode := SaveMode.video, frame := [] }, depthScale := 3 }
    { saveMode := SaveMode.video, frame := [] }
    { saveMode := SaveMode.video, frame := [] }
    [5] [100, 40000] 0 0 0 1 0 rfl rfl).2.1 rfl

theorem camerasLoopRgb_false (x : Int) :
    ∀ (fps : List Int) (sms : List (List Char)), x ∈ fps → x ≤ 0 →
      camerasLoopRgb fps sms = false := by
  intro fps
  induction fps with
  | nil => intro sms h _; simp at h
  | cons f rest ih =>
    intro sms hmem hx
    rcases List.mem_cons.mp hmem with h | h
    · subst h
      simp [camerasLoopRgb, hx]
    · simp only [camerasLoopRgb]
      by_cases hf : f ≤ 0
      · rw [if_pos hf]
      · rw [if_neg hf, ih sms.tail h hx]
        simp

theorem camerasLoopRgbd_false (x : Int) :
    ∀ (fps : List Int) (rsm dsm : List (List Char)), x ∈ fps → x ≤ 0 →
      camerasLoopRgbd fps rsm dsm = false := by
  intro fps
  induction fps with
  | nil => intro rsm dsm h _; simp at h
  | cons f rest ih =>
    intro rsm dsm hmem hx
    rcases List.mem_cons.mp hmem with h | h
    · subst h
      simp [camerasLoopRgbd, hx]
    · simp only [camerasLoopRgbd]
      by_cases hf : f ≤ 0
      · rw [if_pos hf]
      · rw [if_neg hf, ih rsm.tail dsm.tail h hx]
        simp

theorem populateRgb_false (conf : CamerasConf) (fps : List Int) (x : Int)
    (hf : conf.rgbFps = some fps) (hx : x ∈ fps) (hx0 : x ≤ 0) :
    populateRgb conf = false := by
  simp only [populateRgb, hf]
  cases hsm : conf.rgbSaveModes with
  | none => rfl
  | some sm =>
    dsimp only
    by_cases h1 : fps.length ≠ sm.length
    · rw [if_pos h1]
    · rw [if_neg h1]
      by_cases h2 : fps.length ≠ conf.rgbCameras.length
      · rw [if_pos h2]
      · rw [if_neg h2]
        exact camerasLoopRgb_false x fps sm hx hx0

theorem populateRgbd_false (conf : CamerasConf) (fps : List Int) (x : Int)
    (hf : conf.rgbdFps = some fps) (hx : x ∈ fps) (hx0 : x ≤ 0) :
    populateRgbd conf = false := by
  simp only [populateRgbd, hf]
  cases hsc : conf.rgbdDepthScale with
  | none => rfl
  | some scale =>
    cases hrsm : conf.rgbdRgbSaveModes with
    | none => rfl
    | some rsm =>
      cases hdsm : conf.rgbdDepthSaveModes with
      | none => rfl
      | some dsm =>
        dsimp only
        by_cases h1 : fps.length ≠ scale.length ∨ fps.length ≠ rsm.length
            ∨ fps.length ≠ dsm.length
        · rw [if_pos h1]
        · rw [if_neg h1]
          by_cases h2 : fps.length ≠ rsm.length
          · rw [if_pos h2]
          · rw [if_neg h2]
            by_cases h3 : fps.length ≠ conf.rgbdCameras.length
            · rw [if_pos h3]
            · rw [if_neg h3]
              exact camerasLoopRgbd_false x fps rsm dsm hx hx0

theorem openCamsOk_false_rgbFps (conf : OpenConf) (hc : conf.cameraBridgeOk = true)
    (he : conf.cams.rgbEnabled = true) (hp : populateRgb conf.cams = false) :
    openCamsOk conf = false := by
  simp [openCamsOk, hc, he, hp]

theorem openCamsOk_false_rgbdFps (conf : OpenConf) (hc : conf.cameraBridgeOk = true)
    (he : conf.cams.rgbdEnabled = true) (hp : populateRgbd conf.cams = false) :
    openCamsOk conf = false := by
  simp [openCamsOk, hc, he, hp]

theorem openCamsOk_false_codec (conf : OpenConf) (hc : conf.cameraBridgeOk = true)
    (he : conf.cams.rgbEnabled = true ∨ conf.cams.rgbdEnabled = true)
    (code : List Char) (hcode : conf.cams.videoCodecCode = some code)
    (hlen : code.length ≠ 4) : openCamsOk conf = false := by
  rcases he with he | he <;> simp [openCamsOk, hc, he, hcode, hlen]

theorem openDevice_fst_false (conf : OpenConf) (h : openCamsOk conf = false) :
    (openDevice conf).1 = false := by
  simp only [openDevice]
  by_cases hs : conf.sensorBridgeOk = false
  · simp [hs]
  · simp [hs, h]

theorem openDevice_snd (conf : OpenConf) : (openDevice conf).2 = [] := by
  simp only [openDevice]
  by_cases h1 : conf.sensorBridgeOk = false
  · simp [h1]
  · by_cases h2 : openCamsOk conf = false
    · simp [h1, h2]
    · by_cases h3 : conf.telemetryOk = false
      · simp [h1, h2, h3]
      · by_cases h4 : conf.exogenousOk = false
        · simp [h1, h2, h3, h4]
        · simp [h1, h2, h3, h4]

/-- C9 counterexample: the camera bridge is configured (so the device is not
in the no-video fallback), no camera type is enabled, and video_codec_code is
provided with only 2 characters — open succeeds anyway, because the codec
length is checked only when a camera type is enabled. -/
theorem open_codec_cex :
    openDevice confBadCodec = (true, []) ∧
    confBadCodec.cams.videoCodecCode = some (str "ab") ∧
    (str "ab").length ≠ 4 := by
  decide

/-- C9 (amended): open() returns false — before any worker thread is started,
since open starts none on any path — whenever camera recording is configured
and an enabled camera list contains a non-positive frame rate, or when a
camera type is enabled and the provided video_codec_code is not exactly 4
characters long. -/
theorem open_validation (conf : OpenConf) (hc : conf.cameraBridgeOk = true) :
    (∀ fps x, conf.cams.rgbEnabled = true → conf.cams.rgbFps = some fps →
      x ∈ fps → x ≤ 0 → (openDevice conf).1 = false) ∧
    (∀ fps x, conf.cams.rgbdEnabled = true → conf.cams.rgbdFps = some fps →
      x ∈ fps → x ≤ 0 → (openDevice conf).1 = false) ∧
    (∀ code, (conf.cams.rgbEnabled = true ∨ conf.cams.rgbdEnabled = true) →
      conf.cams.videoCodecCode = some code → code.length ≠ 4 →
      (openDevice conf).1 = false) ∧
    (openDevice conf).2 = [] := by
  refine ⟨?_, ?_, ?_, openDevice_snd conf⟩
  · intro fps x he hf hx hx0
    exact openDevice_fst_false conf
      (openCamsOk_false_rgbFps conf hc he (populateRgb_false conf.cams fps x hf hx hx0))
  · intro fps x he hf hx hx0
    exact openDevice_fst_false conf
      (openCamsOk_false_rgbdFps conf hc he (populateRgbd_false conf.cams fps x hf hx hx0))
  · intro code he hcode hlen
    exact openDevice_fst_false conf
      (openCamsOk_false_codec conf hc he code hcode hlen)

/-- Witness for C9: the configuration with a single rgb camera at fps -1. -/
theorem open_validation_witness :
    (openDevice confBadFps).1 = false ∧ (openDevice confBadFps).2 = [] :=
  ⟨(open_validation confBadFps rfl).1 [-1] (-1) rfl rfl (by decide) (by decide),
   (open_validation confBadFps rfl).2.2.2⟩
